import Mathlib

/-!
Shallow embedding of the MicroShift run-command orchestration, from the
source file `pkg/cmd/run.go` (function `RunMicroshift` and the constant
`gracefulShutdownTimeout`), together with a model of the service-manager
contract the orchestrator drives.  Times are natural numbers; `Option Nat`
encodes an event that may never occur (`none`).  Propagation between
goroutines (the certificate watcher reacting to a context becoming done,
the watcher cancelling the run context) is modelled as instantaneous.
Where the Go `select` statement chooses randomly among simultaneously
ready cases, the model uses the textual case order of the source; every
theorem below that depends on which event came first assumes a strict
inequality, so this tie-break never decides a claim.
-/

namespace Microshift

/-- Modelled from the spec: the registration error taxonomy of the
`servicemanager` package, which is not among the visible sources (only its
call sites in `run.go` are).  Registration fails with `duplicateName` on a
reused service name and with `alreadyRunning` after a run session has
started. -/
inductive RegError
  | duplicateName
  | alreadyRunning
  deriving DecidableEq, Repr

/-- Modelled from the spec: `AddService` (the Manager's `register`
operation), which is not among the visible sources.  The registry is the
ordered list of registered service names; registering an already-present
name fails with `duplicateName` and leaves the registry unchanged,
otherwise the name is appended, preserving registration order. -/
def AddService (reg : List String) (n : String) : Option RegError × List String :=
  if n ∈ reg then (some RegError.duplicateName, reg) else (none, reg ++ [n])

/-- Modelled from the spec: registering a sequence of services one after
another, stopping at the first failure, as the chain of `AddService` calls
in `RunMicroshift` does (each call is wrapped in `util.Must`). -/
def addAll (reg : List String) (ns : List String) : Option RegError × List String :=
  match ns with
  | [] => (none, reg)
  | n :: rest =>
    match AddService reg n with
    | (some e, r) => (some e, r)
    | (none, r) => addAll r rest

/-- Modelled from the spec: the per-service events the Manager observes
during a run session, in the order it observes them: a service signalling
readiness, or a service's `run` returning an error. -/
inductive SvcEvent
  | ready (n : String)
  | failed (n : String)
  deriving DecidableEq, Repr

/-- Whether an event is a service failure. -/
def SvcEvent.isFailedEvt : SvcEvent → Bool
  | .ready _ => false
  | .failed _ => true

/-- Modelled from the spec: the Manager's session state.  `readySet` is the
set of services that have signalled readiness, `readyWritten` whether the
aggregate readiness signal has been written to `readyOut`, `failure` the
fatal startup failure (if any), `cancelled` whether the Manager has
cancelled the shared scope, `stopOrder` the stop order it issued on a
startup failure, and `steadyFailures` the per-service failures recorded
after readiness, which do not cancel the scope. -/
structure MgrState where
  readySet : List String
  readyWritten : Bool
  failure : Option String
  cancelled : Bool
  stopOrder : List String
  steadyFailures : List String
  deriving DecidableEq, Repr

/-- Insert a name into a set represented as a duplicate-free list; a
repeated readiness signal is a no-op, as the spec requires the Manager to
tolerate. -/
def insertOnce (n : String) (l : List String) : List String :=
  if n ∈ l then l else l ++ [n]

/-- Every registered name is in the ready set. -/
def allReady (reg rs : List String) : Bool :=
  reg.all fun m => decide (m ∈ rs)

/-- Modelled from the spec: one step of the Manager's event loop.  After
the Manager has cancelled the scope for a startup failure it has returned,
so later events are not processed.  A readiness signal enlarges the ready
set and writes the aggregate readiness signal once the set covers the
registry; a failure before aggregate readiness cancels the shared scope
and stops the other services in reverse registration order; a failure
after readiness is recorded without cancelling anything. -/
def mgrStep (reg : List String) (st : MgrState) (e : SvcEvent) : MgrState :=
  if st.cancelled then st
  else
    match e with
    | .ready n =>
      { st with readySet := insertOnce n st.readySet,
                readyWritten := st.readyWritten || allReady reg (insertOnce n st.readySet) }
    | .failed n =>
      if st.readyWritten then { st with steadyFailures := st.steadyFailures ++ [n] }
      else
        { st with failure := some n, cancelled := true,
                  stopOrder := (reg.filter (fun m => decide (m ≠ n))).reverse }

/-- Modelled from the spec: the Manager's state when a session starts.  With
an empty registry the aggregate readiness condition is vacuously met, so
the signal is considered written immediately. -/
def mgrInit (reg : List String) : MgrState :=
  { readySet := [], readyWritten := allReady reg [], failure := none,
    cancelled := false, stopOrder := [], steadyFailures := [] }

/-- Modelled from the spec: the Manager's run over a session's event
sequence. -/
def mgrRun (reg : List String) (events : List SvcEvent) : MgrState :=
  events.foldl (mgrStep reg) (mgrInit reg)

/-- Graceful-shutdown timeout constant from `run.go` (used there as a
number of seconds). -/
def gracefulShutdownTimeout : Nat := 60

/-- One run-session environment for `RunMicroshift`: the instants at which
its external events would occur.  `readyAt`: the Manager closes the
`ready` channel; `sigAt`: an operator signal (interrupt or SIGTERM)
arrives; `certDeadlineAt`: the certificate-rotation deadline
(`rotationDate`); `sessionEndAt`: the Manager's `Run` would return on its
own, without cancellation; `stopLag`: how long after run-scope
cancellation the Manager closes `stopped` (`none`: some service never
returns). -/
structure Sched where
  readyAt : Option Nat
  sigAt : Option Nat
  certDeadlineAt : Nat
  sessionEndAt : Option Nat
  stopLag : Option Nat
  deriving DecidableEq, Repr

/-- The three cases of the first `select` in `RunMicroshift`. -/
inductive FirstCase
  | ready
  | sig
  | runDone
  deriving DecidableEq, Repr

/-- Which case of the first `select` fires, and when.  Before the main flow
itself calls `runCancel`, the `runCtx.Done` case can only fire through the
certificate watcher, that is at `certDeadlineAt`. -/
def firstWake (s : Sched) : FirstCase × Nat :=
  match s.readyAt, s.sigAt with
  | some r, some g =>
    if r ≤ g ∧ r ≤ s.certDeadlineAt then (.ready, r)
    else if g ≤ s.certDeadlineAt then (.sig, g)
    else (.runDone, s.certDeadlineAt)
  | some r, none =>
    if r ≤ s.certDeadlineAt then (.ready, r) else (.runDone, s.certDeadlineAt)
  | none, some g =>
    if g ≤ s.certDeadlineAt then (.sig, g) else (.runDone, s.certDeadlineAt)
  | none, none => (.runDone, s.certDeadlineAt)

/-- When the main flow reaches its `runCancel()` call after the first
`select` (the "Stopping services" point).  In the `ready` case the source
then blocks on the `sigTerm` channel alone, so the flow proceeds exactly
when (and only if) a signal arrives; in that case the signal time is not
earlier than the wake time, since otherwise the `sig` case would have
fired. -/
def cancelMain (s : Sched) : Option Nat :=
  match firstWake s with
  | (.ready, _) => s.sigAt
  | (.sig, t) => some t
  | (.runDone, t) => some t

/-- How many times the sd-notify readiness handshake is performed: once in
the `ready` case of the first `select`, never otherwise. -/
def notifyCount (s : Sched) : Nat :=
  if (firstWake s).1 = FirstCase.ready then 1 else 0

/-- When the sd-notify readiness handshake happens, if it does. -/
def notifyAt (s : Sched) : Option Nat :=
  if (firstWake s).1 = FirstCase.ready then some (firstWake s).2 else none

/-- When the "Interrupt received" line is logged, if ever: on receiving the
signal, in both the ready-then-signal path and the direct signal path. -/
def interruptLogAt (s : Sched) : Option Nat :=
  match firstWake s with
  | (.ready, _) => s.sigAt
  | (.sig, t) => some t
  | (.runDone, _) => none

/-- Whether the certificate watcher takes its deadline branch (logging
"Stopping services for certificate rotation" and calling `runCancel`): it
does unless the run scope is cancelled strictly before the deadline, in
which case the watcher takes its other branch and calls `certCancel`. -/
def certBranch (s : Sched) : Bool :=
  match cancelMain s with
  | none => true
  | some ct => decide (s.certDeadlineAt ≤ ct)

/-- When the watcher logs its certificate-rotation line, if it does. -/
def certLogAt (s : Sched) : Option Nat :=
  if certBranch s then some s.certDeadlineAt else none

/-- When the run scope (`runCtx`) becomes done: the earlier of the
watcher's deadline-driven cancellation and the main flow's own
`runCancel()`. -/
def runDoneAt (s : Sched) : Nat :=
  match cancelMain s with
  | none => s.certDeadlineAt
  | some ct => min s.certDeadlineAt ct

/-- When the certificate scope (`certCtx`) becomes done: at its deadline
when the watcher takes the deadline branch, otherwise at the watcher's
`certCancel()` call in its run-scope branch. -/
def certDoneAt (s : Sched) : Nat :=
  if certBranch s then s.certDeadlineAt
  else (cancelMain s).getD s.certDeadlineAt

/-- The watcher goroutine exits at the first of the two `Done` events it
selects over. -/
def watcherExitAt (s : Sched) : Nat :=
  min (certDoneAt s) (runDoneAt s)

/-- When the Manager closes `stopped`: at `sessionEndAt` when its run ends
on its own before the run scope is cancelled, otherwise `stopLag` after
the cancellation. -/
def stoppedAt (s : Sched) : Option Nat :=
  match s.sessionEndAt with
  | some e =>
    if e ≤ runDoneAt s then some e else s.stopLag.map fun l => l + runDoneAt s
  | none => s.stopLag.map fun l => l + runDoneAt s

/-- The final `select` of `RunMicroshift`: wait for `stopped` or for the
graceful-shutdown timer, whichever fires first.  Returns whether the
timeout branch was taken (logging "Timed out waiting for services to
stop") and the time at which the flow proceeds. -/
def finalWait (ct : Nat) (st : Option Nat) : Bool × Nat :=
  match st with
  | some t =>
    if t ≤ ct + gracefulShutdownTimeout then (false, max t ct)
    else (true, ct + gracefulShutdownTimeout)
  | none => (true, ct + gracefulShutdownTimeout)

/-- Whether the shutdown wait timed out. -/
def timedOut (s : Sched) : Bool :=
  match cancelMain s with
  | none => false
  | some ct => (finalWait ct (stoppedAt s)).1

/-- When `RunMicroshift` logs "MicroShift stopped" and returns, if ever. -/
def exitAt (s : Sched) : Option Nat :=
  (cancelMain s).map fun ct => (finalWait ct (stoppedAt s)).2

/-- Whether `RunMicroshift` returns at all; whenever it proceeds past the
first `select`, its return value is `nil`. -/
def returnsNil (s : Sched) : Bool :=
  (cancelMain s).isSome

/-- The shutdown-trigger classes named by the specification. -/
inductive Reason
  | signal
  | deadline
  | sessionEnd
  deriving DecidableEq, Repr

/-- The shutdown reason actually recorded by the logs: the earlier of the
watcher's certificate-rotation line and the main flow's interrupt line. -/
def recordedReason (s : Sched) : Option Reason :=
  match certLogAt s, interruptLogAt s with
  | none, none => none
  | some _, none => some Reason.deadline
  | none, some _ => some Reason.signal
  | some cd, some ig =>
    if cd ≤ ig then some Reason.deadline else some Reason.signal

/-- At what instant each trigger class actually fires during the session
(`none` when it never does): the signal at its arrival; the deadline only
when the certificate scope lives to see it; the session end only when the
Manager's run ends before the run scope is cancelled. -/
def triggerTime (s : Sched) : Reason → Option Nat
  | .signal => s.sigAt
  | .deadline => if certBranch s then some s.certDeadlineAt else none
  | .sessionEnd =>
    match s.sessionEndAt with
    | some e => if e ≤ runDoneAt s then some e else none
    | none => none

/-- Earlier of two optionally-firing candidates, left-biased on ties. -/
def earlierCand (a b : Reason × Option Nat) : Reason × Option Nat :=
  match a, b with
  | (_, none), y => y
  | (ra, some x), (_, none) => (ra, some x)
  | (ra, some x), (rb, some y) =>
    if x ≤ y then (ra, some x) else (rb, some y)

/-- Which trigger class fires first in the session, if any fires at all. -/
def firstTrigger (s : Sched) : Option Reason :=
  match earlierCand (Reason.signal, triggerTime s Reason.signal)
      (earlierCand (Reason.deadline, triggerTime s Reason.deadline)
        (Reason.sessionEnd, triggerTime s Reason.sessionEnd)) with
  | (_, none) => none
  | (r, some _) => some r

/-- The three execution scopes created by `RunMicroshift`: the process
background context, the certificate-deadline context, and the run
context. -/
inductive Scope
  | background
  | certScope
  | runScope
  deriving DecidableEq, Repr

/-- Parent of each scope as constructed in the source: `certCtx` is
`context.WithDeadline(context.Background(), rotationDate)` and `runCtx` is
`context.WithCancel(context.Background())`, so both are derived directly
from the background context. -/
def scopeParent : Scope → Option Scope
  | .background => none
  | .certScope => some Scope.background
  | .runScope => some Scope.background

/-- Counterexample schedule: the Manager becomes ready at 0, its run then
ends on its own at 1, an operator signal arrives at 5, the rotation
deadline would be at 100. -/
def sched0 : Sched :=
  { readyAt := some 0, sigAt := some 5, certDeadlineAt := 100,
    sessionEndAt := some 1, stopLag := some 0 }

/-- Counterexample schedule: the Manager becomes ready at 0, no operator
signal ever arrives, and the rotation deadline elapses at 10. -/
def sched1 : Sched :=
  { readyAt := some 0, sigAt := none, certDeadlineAt := 10,
    sessionEndAt := none, stopLag := some 0 }

theorem mem_insertOnce_of_mem {n m : String} {l : List String} (h : n ∈ l) :
    n ∈ insertOnce m l := by
  unfold insertOnce
  split
  · exact h
  · exact List.mem_append_left _ h

theorem mem_insertOnce_self (m : String) (l : List String) : m ∈ insertOnce m l := by
  unfold insertOnce
  split
  · assumption
  · exact List.mem_append_right _ (List.mem_singleton.mpr rfl)

theorem mem_insertOnce_iff {n m : String} {l : List String} :
    n ∈ insertOnce m l ↔ n = m ∨ n ∈ l := by
  unfold insertOnce
  split
  · constructor
    · exact fun h => Or.inr h
    · rintro (rfl | h) <;> assumption
  · simp [List.mem_append, or_comm]

theorem allReady_iff (reg rs : List String) :
    allReady reg rs = true ↔ ∀ m ∈ reg, m ∈ rs := by
  simp [allReady]

theorem mgrStep_of_cancelled (reg : List String) (st : MgrState) (e : SvcEvent)
    (h : st.cancelled = true) : mgrStep reg st e = st := by
  simp [mgrStep, h]

theorem foldl_mgrStep_of_cancelled (reg : List String) (l : List SvcEvent) (st : MgrState)
    (h : st.cancelled = true) : l.foldl (mgrStep reg) st = st := by
  induction l with
  | nil => rfl
  | cons e es ih => rw [List.foldl_cons, mgrStep_of_cancelled reg st e h, ih]

theorem mgrStep_readySet_mono (reg : List String) (st : MgrState) (e : SvcEvent)
    {n : String} (h : n ∈ st.readySet) : n ∈ (mgrStep reg st e).readySet := by
  cases e with
  | ready m =>
    simp only [mgrStep]
    split
    · exact h
    · exact mem_insertOnce_of_mem h
  | failed m =>
    simp only [mgrStep]
    split
    · exact h
    · split <;> exact h

theorem foldl_readySet_mono (reg : List String) (l : List SvcEvent) (st : MgrState)
    {n : String} (h : n ∈ st.readySet) : n ∈ (l.foldl (mgrStep reg) st).readySet := by
  induction l generalizing st with
  | nil => exact h
  | cons e es ih => exact ih _ (mgrStep_readySet_mono reg st e h)

theorem mgrStep_readyWritten_mono (reg : List String) (st : MgrState) (e : SvcEvent)
    (h : st.readyWritten = true) : (mgrStep reg st e).readyWritten = true := by
  cases e with
  | ready m =>
    simp only [mgrStep]
    split
    · exact h
    · simp [h]
  | failed m =>
    by_cases hc : st.cancelled = true
    · simp [mgrStep, hc, h]
    · simp [mgrStep, hc, h]

theorem foldl_readyWritten_mono (reg : List String) (l : List SvcEvent) (st : MgrState)
    (h : st.readyWritten = true) : (l.foldl (mgrStep reg) st).readyWritten = true := by
  induction l generalizing st with
  | nil => exact h
  | cons e es ih => exact ih _ (mgrStep_readyWritten_mono reg st e h)

theorem foldl_readySet_src (reg : List String) (l : List SvcEvent) (st : MgrState)
    {n : String} (h : n ∈ (l.foldl (mgrStep reg) st).readySet) :
    n ∈ st.readySet ∨ SvcEvent.ready n ∈ l := by
  induction l generalizing st with
  | nil => exact Or.inl h
  | cons e es ih =>
    rw [List.foldl_cons] at h
    rcases ih _ h with h2 | h2
    · by_cases hc : st.cancelled = true
      · rw [mgrStep_of_cancelled reg st e hc] at h2
        exact Or.inl h2
      · cases e with
        | ready m =>
          have h3 : (mgrStep reg st (SvcEvent.ready m)).readySet
              = insertOnce m st.readySet := by
            simp [mgrStep, hc]
          rw [h3] at h2
          rcases mem_insertOnce_iff.mp h2 with rfl | h4
          · exact Or.inr (List.mem_cons_self _ _)
          · exact Or.inl h4
        | failed m =>
          have h3 : (mgrStep reg st (SvcEvent.failed m)).readySet = st.readySet := by
            simp only [mgrStep, if_neg hc]
            split <;> rfl
          rw [h3] at h2
          exact Or.inl h2
    · exact Or.inr (List.mem_cons_of_mem _ h2)

theorem foldl_written_src (reg : List String) (l : List SvcEvent) (st : MgrState)
    (h : (l.foldl (mgrStep reg) st).readyWritten = true) :
    st.readyWritten = true ∨ allReady reg (l.foldl (mgrStep reg) st).readySet = true := by
  induction l generalizing st with
  | nil => exact Or.inl h
  | cons e es ih =>
    rw [List.foldl_cons] at h ⊢
    rcases ih _ h with h2 | h2
    · by_cases hc : st.cancelled = true
      · rw [mgrStep_of_cancelled reg st e hc] at h2
        exact Or.inl h2
      · cases e with
        | ready m =>
          have h3 : (mgrStep reg st (SvcEvent.ready m)).readyWritten
              = (st.readyWritten || allReady reg (insertOnce m st.readySet)) := by
            simp [mgrStep, hc]
          rw [h3, Bool.or_eq_true] at h2
          rcases h2 with h4 | h4
          · exact Or.inl h4
          · right
            rw [allReady_iff] at h4 ⊢
            intro x hx
            apply foldl_readySet_mono
            have h5 : (mgrStep reg st (SvcEvent.ready m)).readySet
                = insertOnce m st.readySet := by
              simp [mgrStep, hc]
            rw [h5]
            exact h4 x hx
        | failed m =>
          have h3 : (mgrStep reg st (SvcEvent.failed m)).readyWritten
              = st.readyWritten := by
            simp only [mgrStep, if_neg hc]
            split <;> rfl
          rw [h3] at h2
          exact Or.inl h2
    · exact Or.inr h2

theorem foldl_nofail_cancelled (reg : List String) (l : List SvcEvent) (st : MgrState)
    (hnf : ∀ e ∈ l, e.isFailedEvt = false) (hc : st.cancelled = false) :
    (l.foldl (mgrStep reg) st).cancelled = false := by
  induction l generalizing st with
  | nil => exact hc
  | cons e es ih =>
    rw [List.foldl_cons]
    cases e with
    | ready m =>
      apply ih _ (fun x hx => hnf x (List.mem_cons_of_mem _ hx))
      simp [mgrStep, hc]
    | failed m =>
      have := hnf _ (List.mem_cons_self _ _)
      simp [SvcEvent.isFailedEvt] at this

theorem foldl_ready_collect (reg : List String) (l : List SvcEvent) (st : MgrState)
    (hnf : ∀ e ∈ l, e.isFailedEvt = false) (hc : st.cancelled = false)
    {n : String} (h : SvcEvent.ready n ∈ l) :
    n ∈ (l.foldl (mgrStep reg) st).readySet := by
  induction l generalizing st with
  | nil => cases h
  | cons e es ih =>
    rw [List.foldl_cons]
    rcases List.mem_cons.mp h with heq | h2
    · have h3 : (mgrStep reg st e).readySet = insertOnce n st.readySet := by
        rw [show e = SvcEvent.ready n from heq.symm]
        simp [mgrStep, hc]
      exact foldl_readySet_mono reg es _ (h3 ▸ mem_insertOnce_self n st.readySet)
    · cases e with
      | ready m =>
        apply ih _ (fun x hx => hnf x (List.mem_cons_of_mem _ hx)) _ h2
        simp [mgrStep, hc]
      | failed m =>
        have := hnf _ (List.mem_cons_self _ _)
        simp [SvcEvent.isFailedEvt] at this

theorem foldl_covered_written (reg : List String) (l : List SvcEvent) (st : MgrState)
    (hnf : ∀ e ∈ l, e.isFailedEvt = false) (hc : st.cancelled = false)
    (h : allReady reg (l.foldl (mgrStep reg) st).readySet = true) :
    (l.foldl (mgrStep reg) st).readyWritten = true ∨ allReady reg st.readySet = true := by
  induction l generalizing st with
  | nil => exact Or.inr h
  | cons e es ih =>
    rw [List.foldl_cons] at h ⊢
    cases e with
    | failed m =>
      have := hnf _ (List.mem_cons_self _ _)
      simp [SvcEvent.isFailedEvt] at this
    | ready m =>
      have hc2 : (mgrStep reg st (SvcEvent.ready m)).cancelled = false := by
        simp [mgrStep, hc]
      rcases ih (mgrStep reg st (SvcEvent.ready m))
          (fun x hx => hnf x (List.mem_cons_of_mem _ hx)) hc2 h with h2 | h2
      · exact Or.inl h2
      · left
        apply foldl_readyWritten_mono
        have h3 : (mgrStep reg st (SvcEvent.ready m)).readyWritten
            = (st.readyWritten || allReady reg (insertOnce m st.readySet)) := by
          simp [mgrStep, hc]
        have h4 : (mgrStep reg st (SvcEvent.ready m)).readySet
            = insertOnce m st.readySet := by
          simp [mgrStep, hc]
        rw [h3]
        rw [h4] at h2
        simp [h2]

theorem mgrRun_append (reg : List String) (l1 l2 : List SvcEvent) :
    mgrRun reg (l1 ++ l2) = l2.foldl (mgrStep reg) (mgrRun reg l1) := by
  unfold mgrRun
  rw [List.foldl_append]

theorem addAll_ok (ns : List String) : ∀ reg : List String, ns.Nodup →
    (∀ n ∈ ns, n ∉ reg) → (addAll reg ns).1 = none := by
  induction ns with
  | nil => intro reg _ _; rfl
  | cons n rest ih =>
    intro reg hnd hdisj
    have hn : n ∉ reg := hdisj n (List.mem_cons_self _ _)
    have hstep : AddService reg n = (none, reg ++ [n]) := by
      simp [AddService, hn]
    show (addAll reg (n :: rest)).1 = none
    rw [addAll, hstep]
    apply ih (reg ++ [n]) (List.Nodup.of_cons hnd)
    intro m hm
    rw [List.mem_append]
    rintro (hmem | hmem)
    · exact hdisj m (List.mem_cons_of_mem _ hm) hmem
    · rw [List.mem_singleton] at hmem
      subst hmem
      exact (List.nodup_cons.mp hnd).1 hm

/-- C8: `AddService` fails with `duplicateName` exactly when a service with
the same name is already registered; on that failure the registry is
unchanged; and a sequence of registrations with pairwise-distinct names
never fails with `duplicateName`. -/
theorem addService_duplicate_spec :
    (∀ (reg : List String) (n : String),
        ((AddService reg n).1 = some RegError.duplicateName ↔ n ∈ reg))
    ∧ (∀ (reg : List String) (n : String), n ∈ reg →
        AddService reg n = (some RegError.duplicateName, reg))
    ∧ (∀ ns : List String, ns.Nodup → (addAll [] ns).1 = none) := by
  refine ⟨fun reg n => ?_, fun reg n h => ?_, fun ns h => ?_⟩
  · constructor
    · intro h
      by_contra hmem
      simp [AddService, hmem] at h
    · intro hmem
      simp [AddService, hmem]
  · simp [AddService, h]
  · exact addAll_ok ns [] h (by simp)

/-- C8 witness: three pairwise-distinct registrations all succeed, and a
duplicate registration fails without changing the registry. -/
theorem addService_duplicate_spec_witness :
    List.Nodup ["netConf", "etcd", "kubeAPI"]
    ∧ (addAll [] ["netConf", "etcd", "kubeAPI"]).1 = none
    ∧ AddService ["netConf", "etcd"] "etcd"
        = (some RegError.duplicateName, ["netConf", "etcd"]) :=
  ⟨by decide, addService_duplicate_spec.2.2 _ (by decide),
    addService_duplicate_spec.2.1 _ _ (by decide)⟩

theorem mgrRun_written_ready_mem (reg : List String) (events : List SvcEvent)
    (h : (mgrRun reg events).readyWritten = true) :
    ∀ n ∈ reg, SvcEvent.ready n ∈ events := by
  intro n hn
  rcases foldl_written_src reg events (mgrInit reg) h with h2 | h2
  · have h3 : allReady reg [] = true := h2
    have : n ∈ ([] : List String) := (allReady_iff reg []).mp h3 n hn
    cases this
  · have hmem : n ∈ (mgrRun reg events).readySet := (allReady_iff _ _).mp h2 n hn
    rcases foldl_readySet_src reg events (mgrInit reg) hmem with h3 | h3
    · cases h3
    · exact h3

/-- C1 counterexample: the unrestricted biconditional of the claim fails.
In the session where service A signals readiness, then A fails before
aggregate readiness, and B signals during teardown, every one of the two
registered services has signalled its readiness at least once, yet the
aggregate readiness signal is never written: the failure cancelled the
session first. -/
theorem mgr_ready_iff_unrestricted_cex :
    (∀ n ∈ ["A", "B"], SvcEvent.ready n
        ∈ [SvcEvent.ready "A", SvcEvent.failed "A", SvcEvent.ready "B"])
    ∧ (mgrRun ["A", "B"]
        [SvcEvent.ready "A", SvcEvent.failed "A", SvcEvent.ready "B"]).readyWritten
        = false := by decide

/-- C1 amended: the aggregate readiness signal is written to `readyOut`
only if every registered service has signalled readiness at least once
(unconditionally, so a session with N services and only N-1 readiness
signals never reaches Ready), and conversely, in a session in which no
service fails, it is written once every registered service has
signalled. -/
theorem mgr_aggregate_ready_iff (reg : List String) (events : List SvcEvent) :
    ((mgrRun reg events).readyWritten = true → ∀ n ∈ reg, SvcEvent.ready n ∈ events)
    ∧ ((∀ e ∈ events, e.isFailedEvt = false) →
        (∀ n ∈ reg, SvcEvent.ready n ∈ events) →
        (mgrRun reg events).readyWritten = true) := by
  constructor
  · exact mgrRun_written_ready_mem reg events
  · intro hnf hall
    have hc0 : (mgrInit reg).cancelled = false := rfl
    have hcov : allReady reg (mgrRun reg events).readySet = true := by
      rw [allReady_iff]
      intro n hn
      exact foldl_ready_collect reg events (mgrInit reg) hnf hc0 (hall n hn)
    rcases foldl_covered_written reg events (mgrInit reg) hnf hc0 hcov with h2 | h2
    · exact h2
    · exact foldl_readyWritten_mono reg events (mgrInit reg) h2

/-- C1 witness: with services A and B, one readiness signal does not reach
Ready, both do. -/
theorem mgr_aggregate_ready_iff_witness :
    (mgrRun ["A", "B"] [SvcEvent.ready "A", SvcEvent.ready "B"]).readyWritten = true
    ∧ (mgrRun ["A", "B"] [SvcEvent.ready "A"]).readyWritten = false :=
  ⟨(mgr_aggregate_ready_iff ["A", "B"] [SvcEvent.ready "A", SvcEvent.ready "B"]).2
      (by decide) (by decide),
    by decide⟩

/-- C4: if a registered service fails before having signalled readiness (in
a session with no earlier failure), the Manager records that service as the
fatal failure, cancels the shared scope, issues stop for the other services
in reverse registration order, and the aggregate readiness signal is never
written, whatever events follow. -/
theorem mgr_startup_failure (reg : List String) (pre post : List SvcEvent) (n : String)
    (hreg : n ∈ reg) (hnr : SvcEvent.ready n ∉ pre)
    (hnf : ∀ e ∈ pre, e.isFailedEvt = false) :
    (mgrRun reg (pre ++ SvcEvent.failed n :: post)).failure = some n
    ∧ (mgrRun reg (pre ++ SvcEvent.failed n :: post)).cancelled = true
    ∧ (mgrRun reg (pre ++ SvcEvent.failed n :: post)).readyWritten = false
    ∧ (mgrRun reg (pre ++ SvcEvent.failed n :: post)).stopOrder
        = (reg.filter fun m => decide (m ≠ n)).reverse := by
  have hc : (mgrRun reg pre).cancelled = false :=
    foldl_nofail_cancelled reg pre (mgrInit reg) hnf rfl
  have hw : (mgrRun reg pre).readyWritten = false := by
    by_contra hcon
    rw [Bool.not_eq_false] at hcon
    exact hnr (mgrRun_written_ready_mem reg pre hcon n hreg)
  have hcanc : (mgrStep reg (mgrRun reg pre) (SvcEvent.failed n)).cancelled = true := by
    simp [mgrStep, hc, hw]
  have hrun : mgrRun reg (pre ++ SvcEvent.failed n :: post)
      = mgrStep reg (mgrRun reg pre) (SvcEvent.failed n) := by
    rw [mgrRun_append, List.foldl_cons]
    exact foldl_mgrStep_of_cancelled reg post _ hcanc
  rw [hrun]
  refine ⟨?_, ?_, ?_, ?_⟩ <;> simp [mgrStep, hc, hw]

/-- C4 witness: with services A and B, A ready, then B failing before its
own readiness signal, the session records the fatal failure of B, cancels,
stops A (the only other service), and never writes readiness. -/
theorem mgr_startup_failure_witness :
    ("B" ∈ ["A", "B"])
    ∧ (SvcEvent.ready "B" ∉ [SvcEvent.ready "A"])
    ∧ (mgrRun ["A", "B"]
        ([SvcEvent.ready "A"] ++ SvcEvent.failed "B" :: [SvcEvent.ready "B"])).failure
        = some "B"
    ∧ (mgrRun ["A", "B"]
        ([SvcEvent.ready "A"] ++ SvcEvent.failed "B" :: [SvcEvent.ready "B"])).cancelled
        = true
    ∧ (mgrRun ["A", "B"]
        ([SvcEvent.ready "A"] ++ SvcEvent.failed "B" :: [SvcEvent.ready "B"])).readyWritten
        = false
    ∧ (mgrRun ["A", "B"]
        ([SvcEvent.ready "A"] ++ SvcEvent.failed "B" :: [SvcEvent.ready "B"])).stopOrder
        = ["A"] := by
  have h := mgr_startup_failure ["A", "B"] [SvcEvent.ready "A"] [SvcEvent.ready "B"] "B"
    (by decide) (by decide) (by decide)
  exact ⟨by decide, by decide, h.1, h.2.1, h.2.2.1, by rw [h.2.2.2]; decide⟩

theorem runDoneAt_of_certBranch (s : Sched) (h : certBranch s = true) :
    runDoneAt s = s.certDeadlineAt := by
  unfold certBranch at h
  unfold runDoneAt
  cases hc : cancelMain s with
  | none => rfl
  | some ct =>
    rw [hc] at h
    exact Nat.min_eq_left (of_decide_eq_true h)

theorem certDoneAt_eq_runDoneAt (s : Sched) : certDoneAt s = runDoneAt s := by
  unfold certDoneAt runDoneAt certBranch
  cases hc : cancelMain s with
  | none => simp
  | some ct =>
    by_cases hd : s.certDeadlineAt ≤ ct
    · simp [hd, Nat.min_eq_left hd]
    · simp [hd, Nat.min_eq_right (le_of_not_le hd)]

theorem certBranch_of_sigNone (s : Sched) (h : s.sigAt = none) : certBranch s = true := by
  obtain ⟨ro, go, d, se, lag⟩ := s
  cases go with
  | some g => simp at h
  | none =>
    cases ro with
    | none => simp [certBranch, cancelMain, firstWake]
    | some r =>
      by_cases hr : r ≤ d
      · simp [certBranch, cancelMain, firstWake, hr]
      · simp [certBranch, cancelMain, firstWake, hr]

/-- C7: the rotation deadline bounds a cancellable scope derived directly
from the top-level background scope; whenever the deadline actually
elapses (the watcher takes its deadline branch) the top-level run scope is
cancelled at that very instant, producing the rotation-deadline-reached
trigger; and in the absence of any operator signal the deadline branch
always fires. -/
theorem rotation_deadline_scope (s : Sched) :
    scopeParent Scope.certScope = some Scope.background
    ∧ (certBranch s = true → runDoneAt s = s.certDeadlineAt
        ∧ triggerTime s Reason.deadline = some s.certDeadlineAt)
    ∧ (s.sigAt = none → certBranch s = true ∧ runDoneAt s = s.certDeadlineAt) := by
  refine ⟨rfl, fun h => ⟨runDoneAt_of_certBranch s h, by simp [triggerTime, h]⟩, fun h => ?_⟩
  have hb := certBranch_of_sigNone s h
  exact ⟨hb, runDoneAt_of_certBranch s hb⟩

/-- C7 witness: with readiness at 0 and no operator signal, the deadline at
7 cancels the run scope at 7. -/
def sched3 : Sched :=
  { readyAt := some 0, sigAt := none, certDeadlineAt := 7,
    sessionEndAt := none, stopLag := some 1 }

theorem rotation_deadline_scope_witness :
    sched3.sigAt = none
    ∧ (certBranch sched3 = true ∧ runDoneAt sched3 = sched3.certDeadlineAt)
    ∧ (runDoneAt sched3 = sched3.certDeadlineAt
        ∧ triggerTime sched3 Reason.deadline = some sched3.certDeadlineAt) :=
  ⟨rfl, (rotation_deadline_scope sched3).2.2 rfl,
    (rotation_deadline_scope sched3).2.1 (by decide)⟩

/-- C10: both scopes end up done at the same instant and the watcher exits
with them: when the deadline fires first the watcher cancels the run scope
at the deadline, and when the run scope is cancelled first the watcher
cancels the certificate scope at that cancellation instant, so neither
scope nor the watcher outlives the run session. -/
theorem scopes_mutual_cancellation (s : Sched) :
    certDoneAt s = runDoneAt s
    ∧ watcherExitAt s = runDoneAt s
    ∧ (certBranch s = true → runDoneAt s = s.certDeadlineAt)
    ∧ (certBranch s = false →
        ∃ ct, cancelMain s = some ct ∧ certDoneAt s = ct ∧ ct < s.certDeadlineAt) := by
  refine ⟨certDoneAt_eq_runDoneAt s, ?_, fun h => runDoneAt_of_certBranch s h, fun h => ?_⟩
  · rw [watcherExitAt, certDoneAt_eq_runDoneAt s, Nat.min_self]
  · cases hc : cancelMain s with
    | none => simp [certBranch, hc] at h
    | some ct =>
      have hd : ¬ s.certDeadlineAt ≤ ct := by
        intro hle
        simp [certBranch, hc, hle] at h
      refine ⟨ct, rfl, ?_, Nat.lt_of_not_le hd⟩
      have hb : certBranch s = false := by
        simp [certBranch, hc, hd]
      simp [certDoneAt, hb, hc]

/-- C10 witness: when the operator signal cancels the run scope before the
deadline, the watcher cancels the certificate scope at that same
instant. -/
def sched2 : Sched :=
  { readyAt := some 0, sigAt := some 5, certDeadlineAt := 100,
    sessionEndAt := none, stopLag := some 3 }

theorem scopes_mutual_cancellation_witness :
    certBranch sched2 = false
    ∧ (∃ ct, cancelMain sched2 = some ct ∧ certDoneAt sched2 = ct
        ∧ ct < sched2.certDeadlineAt) :=
  ⟨by decide, (scopes_mutual_cancellation sched2).2.2.2 (by decide)⟩

theorem finalWait_bounds (ct : Nat) (st : Option Nat) :
    ct ≤ (finalWait ct st).2 ∧ (finalWait ct st).2 ≤ ct + gracefulShutdownTimeout := by
  unfold finalWait
  cases st with
  | none => simp
  | some t =>
    by_cases h : t ≤ ct + gracefulShutdownTimeout
    · simp only [h, if_true]
      exact ⟨Nat.le_max_right _ _, Nat.max_le.mpr ⟨h, Nat.le_add_right _ _⟩⟩
    · simp only [h, if_false]
      exact ⟨Nat.le_add_right _ _, Nat.le_refl _⟩

/-- C3: once the orchestrator enters shutdown at an instant ct, it reaches
the "MicroShift stopped" point no later than ct plus the graceful-shutdown
timeout, whose value is the named constant 60; when `stopped` fires within
the grace period the flow proceeds at that moment without the timeout log,
and when the grace period elapses first it logs the timeout and still
proceeds, exactly one grace period after entering shutdown. -/
theorem graceful_shutdown_bounded (s : Sched) (ct : Nat)
    (h : cancelMain s = some ct) :
    gracefulShutdownTimeout = 60
    ∧ (∃ e, exitAt s = some e ∧ ct ≤ e ∧ e ≤ ct + gracefulShutdownTimeout)
    ∧ (∀ st, stoppedAt s = some st → st ≤ ct + gracefulShutdownTimeout →
        timedOut s = false ∧ exitAt s = some (max st ct))
    ∧ ((∀ st, stoppedAt s = some st → ct + gracefulShutdownTimeout < st) →
        timedOut s = true ∧ exitAt s = some (ct + gracefulShutdownTimeout)) := by
  refine ⟨rfl, ?_, ?_, ?_⟩
  · exact ⟨(finalWait ct (stoppedAt s)).2, by simp [exitAt, h],
      (finalWait_bounds ct (stoppedAt s)).1, (finalWait_bounds ct (stoppedAt s)).2⟩
  · intro st hst hle
    constructor
    · simp [timedOut, h, hst, finalWait, hle]
    · simp [exitAt, h, hst, finalWait, hle]
  · intro hgt
    cases hst : stoppedAt s with
    | none =>
      exact ⟨by simp [timedOut, h, hst, finalWait],
        by simp [exitAt, h, hst, finalWait]⟩
    | some st =>
      have hn : ¬ st ≤ ct + gracefulShutdownTimeout := by
        have := hgt st hst
        omega
      exact ⟨by simp [timedOut, h, hst, finalWait, hn],
        by simp [exitAt, h, hst, finalWait, hn]⟩

/-- C3 witness: shutdown entered at 5, services stop at 8, well within the
60-unit grace period, so the flow proceeds at 8 without a timeout. -/
def sched4 : Sched :=
  { readyAt := some 0, sigAt := some 5, certDeadlineAt := 100,
    sessionEndAt := none, stopLag := some 3 }

theorem graceful_shutdown_bounded_witness :
    cancelMain sched4 = some 5
    ∧ (gracefulShutdownTimeout = 60
        ∧ (∃ e, exitAt sched4 = some e ∧ 5 ≤ e ∧ e ≤ 5 + gracefulShutdownTimeout)
        ∧ (∀ st, stoppedAt sched4 = some st → st ≤ 5 + gracefulShutdownTimeout →
            timedOut sched4 = false ∧ exitAt sched4 = some (max st 5))
        ∧ ((∀ st, stoppedAt sched4 = some st → 5 + gracefulShutdownTimeout < st) →
            timedOut sched4 = true ∧ exitAt sched4 = some (5 + gracefulShutdownTimeout))) :=
  ⟨by decide, graceful_shutdown_bounded sched4 5 (by decide)⟩

/-- C9: a shutdown timeout is non-fatal: when the grace period elapses
before the services have stopped, the orchestrator still reaches its exit
point, exactly one grace period after entering shutdown, and
`RunMicroshift` returns nil, the success outcome of a normal shutdown. -/
theorem shutdown_timeout_nonfatal (s : Sched) (h : timedOut s = true) :
    returnsNil s = true
    ∧ ∃ ct, cancelMain s = some ct
        ∧ exitAt s = some (ct + gracefulShutdownTimeout) := by
  cases hc : cancelMain s with
  | none => simp [timedOut, hc] at h
  | some ct =>
    refine ⟨by simp [returnsNil, hc], ct, rfl, ?_⟩
    simp only [timedOut, hc] at h
    simp only [exitAt, hc, Option.map_some]
    unfold finalWait at h ⊢
    cases hst : stoppedAt s with
    | none => simp
    | some t =>
      rw [hst] at h
      by_cases hle : t ≤ ct + gracefulShutdownTimeout
      · simp [hle] at h
      · simp [hle]

/-- C9 witness: a service never stops, the grace period elapses, and the
run still exits at cancel-time plus the grace period, returning nil. -/
def sched5 : Sched :=
  { readyAt := none, sigAt := some 0, certDeadlineAt := 100,
    sessionEndAt := none, stopLag := none }

theorem shutdown_timeout_nonfatal_witness :
    timedOut sched5 = true
    ∧ (returnsNil sched5 = true
        ∧ ∃ ct, cancelMain sched5 = some ct
            ∧ exitAt sched5 = some (ct + gracefulShutdownTimeout)) :=
  ⟨by decide, shutdown_timeout_nonfatal sched5 (by decide)⟩

theorem firstWake_ready_eq (s : Sched) (h : (firstWake s).1 = FirstCase.ready) :
    s.readyAt = some (firstWake s).2 := by
  obtain ⟨ro, go, d, se, lag⟩ := s
  cases ro with
  | none =>
    cases go with
    | none => simp [firstWake] at h
    | some g =>
      simp only [firstWake] at h
      split at h <;> simp_all
  | some r =>
    cases go with
    | none =>
      simp only [firstWake] at h ⊢
      split at h <;> simp_all
    | some g =>
      simp only [firstWake] at h ⊢
      split at h
      · simp_all
      · split at h <;> simp_all

theorem firstWake_not_ready_of_sig_early (s : Sched) (g : Nat) (hg : s.sigAt = some g)
    (hr : ∀ r, s.readyAt = some r → g < r) :
    (firstWake s).1 ≠ FirstCase.ready := by
  obtain ⟨ro, go, d, se, lag⟩ := s
  cases hg
  cases ro with
  | none =>
    simp only [firstWake]
    split <;> simp
  | some r =>
    have hgr : g < r := hr r rfl
    simp only [firstWake]
    have hc1 : ¬ (r ≤ g ∧ r ≤ d) := by omega
    rw [if_neg hc1]
    split <;> simp

theorem cancelMain_isSome_of_not_ready (s : Sched)
    (h : (firstWake s).1 ≠ FirstCase.ready) : (cancelMain s).isSome = true := by
  unfold cancelMain
  cases hw : firstWake s with
  | mk c t =>
    cases c with
    | ready => rw [hw] at h; simp at h
    | sig => rfl
    | runDone => rfl

/-- C6: the sd-notify readiness handshake is performed at most once, and
only at the instant aggregate readiness is observed (the Ready
transition); when an operator signal arrives strictly before readiness, no
handshake ever occurs and the orchestrator still proceeds to shutdown and
returns. -/
theorem notify_once_after_ready (s : Sched) :
    notifyCount s ≤ 1
    ∧ (notifyCount s = 1 → notifyAt s = s.readyAt)
    ∧ (∀ g, s.sigAt = some g → (∀ r, s.readyAt = some r → g < r) →
        notifyCount s = 0 ∧ returnsNil s = true) := by
  refine ⟨?_, ?_, ?_⟩
  · unfold notifyCount
    split <;> omega
  · intro h
    have hr : (firstWake s).1 = FirstCase.ready := by
      by_contra hcon
      rw [notifyCount, if_neg hcon] at h
      cases h
    rw [notifyAt, if_pos hr, firstWake_ready_eq s hr]
  · intro g hg hr
    have hnr := firstWake_not_ready_of_sig_early s g hg hr
    refine ⟨?_, cancelMain_isSome_of_not_ready s hnr⟩
    rw [notifyCount, if_neg hnr]

/-- C6 witness: the signal at 2 precedes readiness at 10, so no handshake
happens and the run proceeds to shutdown. -/
def sched6 : Sched :=
  { readyAt := some 10, sigAt := some 2, certDeadlineAt := 50,
    sessionEndAt := none, stopLag := some 0 }

theorem notify_once_after_ready_witness :
    sched6.sigAt = some 2
    ∧ (∀ r, sched6.readyAt = some r → 2 < r)
    ∧ (notifyCount sched6 = 0 ∧ returnsNil sched6 = true) :=
  ⟨rfl, by decide, (notify_once_after_ready sched6).2.2 2 rfl (by decide)⟩

theorem firstWake_sig_eq (s : Sched) (h : (firstWake s).1 = FirstCase.sig) :
    s.sigAt = some (firstWake s).2 := by
  obtain ⟨ro, go, d, se, lag⟩ := s
  cases ro with
  | none =>
    cases go with
    | none => simp [firstWake] at h
    | some g =>
      simp only [firstWake] at h ⊢
      split_ifs at h ⊢ <;> simp_all
  | some r =>
    cases go with
    | none =>
      simp only [firstWake] at h ⊢
      split_ifs at h ⊢ <;> simp_all
    | some g =>
      simp only [firstWake] at h ⊢
      split_ifs at h ⊢ <;> simp_all

theorem firstWake_runDone_eq (s : Sched) (h : (firstWake s).1 = FirstCase.runDone) :
    (firstWake s).2 = s.certDeadlineAt := by
  obtain ⟨ro, go, d, se, lag⟩ := s
  cases ro with
  | none =>
    cases go with
    | none => rfl
    | some g =>
      simp only [firstWake] at h ⊢
      split_ifs at h ⊢ <;> simp_all
  | some r =>
    cases go with
    | none =>
      simp only [firstWake] at h ⊢
      split_ifs at h ⊢ <;> simp_all
    | some g =>
      simp only [firstWake] at h ⊢
      split_ifs at h ⊢ <;> simp_all

/-- C5 counterexample: at `sched1` the coordinator reaches Ready (handshake
count 1), the rotation deadline then elapses at 10 — the first and only
shutdown event of the session — yet the coordinator never transitions to
shutdown: it never reaches its cancel point and never exits. -/
theorem ready_deadline_no_shutdown_cex :
    notifyCount sched1 = 1
    ∧ triggerTime sched1 Reason.deadline = some 10
    ∧ sched1.sigAt = none
    ∧ cancelMain sched1 = none
    ∧ exitAt sched1 = none
    ∧ returnsNil sched1 = false := by decide

/-- C5 amended: from WaitingForReady the coordinator enters shutdown on the
first of the operator signal and the rotation deadline — when the signal
case of the first select fires shutdown is entered at the signal instant,
and when the run-done case fires it is entered at the deadline; from Ready
(the ready case fired) the coordinator enters shutdown exactly when a
signal arrives and never otherwise; the Manager's session ending on its
own never affects the shutdown instant. -/
theorem coordinator_shutdown_transition (s : Sched) :
    ((firstWake s).1 = FirstCase.sig →
        cancelMain s = some (firstWake s).2 ∧ s.sigAt = some (firstWake s).2)
    ∧ ((firstWake s).1 = FirstCase.runDone → cancelMain s = some s.certDeadlineAt)
    ∧ ((firstWake s).1 = FirstCase.ready → cancelMain s = s.sigAt)
    ∧ (∀ x, cancelMain { s with sessionEndAt := x } = cancelMain s) := by
  refine ⟨fun h => ⟨?_, firstWake_sig_eq s h⟩, fun h => ?_, fun h => ?_, fun x => rfl⟩
  · unfold cancelMain
    cases hw : firstWake s with
    | mk c t =>
      rw [hw] at h
      cases c <;> simp_all
  · have h2 := firstWake_runDone_eq s h
    unfold cancelMain
    cases hw : firstWake s with
    | mk c t =>
      rw [hw] at h h2
      cases c <;> simp_all
  · unfold cancelMain
    cases hw : firstWake s with
    | mk c t =>
      rw [hw] at h
      cases c <;> simp_all

/-- C5 witness: the signal at 2 is the first event, and shutdown is entered
at 2; a different session-end instant does not change that. -/
def sched7 : Sched :=
  { readyAt := some 9, sigAt := some 2, certDeadlineAt := 50,
    sessionEndAt := none, stopLag := some 0 }

theorem coordinator_shutdown_transition_witness :
    (firstWake sched7).1 = FirstCase.sig
    ∧ (cancelMain sched7 = some (firstWake sched7).2
        ∧ sched7.sigAt = some (firstWake sched7).2)
    ∧ cancelMain { sched7 with sessionEndAt := some 1 } = cancelMain sched7 :=
  ⟨by decide, (coordinator_shutdown_transition sched7).1 (by decide),
    (coordinator_shutdown_transition sched7).2.2.2 (some 1)⟩

/-- C2 counterexample: at `sched0` the first trigger to fire is the
Manager's session ending on its own (time 1), yet the recorded shutdown
reason is the operator signal and shutdown is entered only at the signal's
time 5 — the first trigger of the claimed three-element set neither
determines the recorded reason nor makes the later trigger a no-op. -/
theorem shutdown_first_trigger_cex :
    firstTrigger sched0 = some Reason.sessionEnd
    ∧ triggerTime sched0 Reason.sessionEnd = some 1
    ∧ triggerTime sched0 Reason.signal = some 5
    ∧ recordedReason sched0 = some Reason.signal
    ∧ cancelMain sched0 = some 5 := by decide

/-- C2 amended: of the two triggers the coordinator actually races —
operator signal and rotation deadline — the first to fire determines both
the recorded shutdown reason and the instant the run scope is cancelled:
a signal strictly before the deadline records the signal reason and
cancels at the signal time, a deadline strictly before any signal records
the deadline reason and cancels at the deadline, and the Manager's session
ending on its own influences neither. -/
theorem shutdown_first_wins (s : Sched) :
    (∀ g, s.sigAt = some g → g < s.certDeadlineAt →
        recordedReason s = some Reason.signal ∧ runDoneAt s = g)
    ∧ ((∀ g, s.sigAt = some g → s.certDeadlineAt < g) →
        recordedReason s = some Reason.deadline ∧ runDoneAt s = s.certDeadlineAt)
    ∧ (∀ x, recordedReason { s with sessionEndAt := x } = recordedReason s
        ∧ runDoneAt { s with sessionEndAt := x } = runDoneAt s) := by
  refine ⟨?_, ?_, fun x => ⟨rfl, rfl⟩⟩
  · intro g hg hlt
    obtain ⟨ro, go, d, se, lag⟩ := s
    cases hg
    have hlt2 : g < d := hlt
    have hgd : g ≤ d := Nat.le_of_lt hlt2
    have hnd : ¬ d ≤ g := by omega
    cases ro with
    | none =>
      constructor
      · simp [recordedReason, certLogAt, certBranch, interruptLogAt, cancelMain,
          firstWake, hgd, hnd]
      · simp [runDoneAt, cancelMain, firstWake, hgd, Nat.min_eq_right hgd]
    | some r =>
      by_cases hc1 : r ≤ g ∧ r ≤ d
      · constructor
        · simp [recordedReason, certLogAt, certBranch, interruptLogAt, cancelMain,
            firstWake, hc1, hnd]
        · simp [runDoneAt, cancelMain, firstWake, hc1, Nat.min_eq_right hgd]
      · constructor
        · simp [recordedReason, certLogAt, certBranch, interruptLogAt, cancelMain,
            firstWake, hc1, hgd, hnd]
        · simp [runDoneAt, cancelMain, firstWake, hc1, hgd, Nat.min_eq_right hgd]
  · intro hsd
    obtain ⟨ro, go, d, se, lag⟩ := s
    cases go with
    | none =>
      cases ro with
      | none =>
        constructor <;>
          simp [recordedReason, certLogAt, certBranch, interruptLogAt, cancelMain,
            firstWake, runDoneAt, Nat.min_self]
      | some r =>
        by_cases hr : r ≤ d
        · constructor <;>
            simp [recordedReason, certLogAt, certBranch, interruptLogAt, cancelMain,
              firstWake, runDoneAt, hr, Nat.min_self]
        · constructor <;>
            simp [recordedReason, certLogAt, certBranch, interruptLogAt, cancelMain,
              firstWake, runDoneAt, hr, Nat.min_self]
    | some g =>
      have hdg : d < g := hsd g rfl
      have h1 : ¬ g ≤ d := by omega
      have h2 : d ≤ g := Nat.le_of_lt hdg
      cases ro with
      | none =>
        constructor <;>
          simp [recordedReason, certLogAt, certBranch, interruptLogAt, cancelMain,
            firstWake, runDoneAt, h1, h2, Nat.min_self]
      | some r =>
        by_cases hc1 : r ≤ g ∧ r ≤ d
        · constructor <;>
            simp [recordedReason, certLogAt, certBranch, interruptLogAt, cancelMain,
              firstWake, runDoneAt, hc1, h2, Nat.min_eq_left h2]
        · constructor <;>
            simp [recordedReason, certLogAt, certBranch, interruptLogAt, cancelMain,
              firstWake, runDoneAt, hc1, h1, h2, Nat.min_self]

/-- C2 amended witness: at `sched0` the signal (time 5) precedes the
deadline (time 100), the recorded reason is the signal, and the run scope
is cancelled at 5. -/
theorem shutdown_first_wins_witness :
    sched0.sigAt = some 5
    ∧ 5 < sched0.certDeadlineAt
    ∧ (recordedReason sched0 = some Reason.signal ∧ runDoneAt sched0 = 5) :=
  ⟨rfl, by decide, (shutdown_first_wins sched0).1 5 rfl (by decide)⟩

end Microshift
